import Mathlib

/-!
Verification development for the streaming chat decoder of
`ChatGLM-vscode-chat` (`src/provider.ts`, class `ChatGLMRouterProvider`).

Strings of the TypeScript source are embedded as `List Char` so that the
character-level scanning of the inline tool-call multiplexer can be reasoned
about directly.  Mutable fields of the provider object become fields of an
explicit `SessionState`; `progress.report` becomes an accumulated list of
`EmittedEvent`s; a thrown decode error becomes a `Bool` error flag carried
alongside the partial state and events (mirroring the fact that events
reported before a throw have already been delivered).
-/

namespace ChatGLM

/-- Character strings of the TypeScript source, embedded as lists of chars. -/
abbrev Str := List Char

/-- The inline begin-call sentinel marker (`BEGIN` in `processTextContent`). -/
def BEGIN_TOK : Str := "<|tool_call_begin|>".data

/-- The inline argument-begin sentinel marker (`ARG_BEGIN`). -/
def ARG_BEGIN_TOK : Str := "<|tool_call_argument_begin|>".data

/-- The inline end-call sentinel marker (`END`). -/
def END_TOK : Str := "<|tool_call_end|>".data

/-- JavaScript `s.startsWith(pat)` (also the prefix test behind `indexOf`),
by recursion on the pattern. -/
def strStarts (pat s : Str) : Bool :=
  match pat with
  | [] => true
  | p :: ps =>
    match s with
    | [] => false
    | c :: cs => p == c && strStarts ps cs

/-- JavaScript `s.indexOf(pat)`: index of the first occurrence of `pat` in
`s`, `none` for `-1`. -/
def strIndexOf (pat : Str) : Str → Option Nat
  | [] => if strStarts pat ([] : Str) then some 0 else none
  | c :: rest =>
    if strStarts pat (c :: rest) then some 0
    else (strIndexOf pat rest).map (· + 1)

/-- Whitespace as recognized by JavaScript `trim` (the forms that occur in
this protocol). -/
def isWs (c : Char) : Bool := c = ' ' || c = '\n' || c = '\t' || c = '\r'

/-- JavaScript `String.prototype.trim`. -/
def trimStr (s : Str) : Str :=
  ((s.dropWhile isWs).reverse.dropWhile isWs).reverse

/-- Character class `[A-Za-z0-9_\-.]` of the tool-call header pattern. -/
def isNameChar (c : Char) : Bool :=
  c.isAlphanum || c = '_' || c = '-' || c = '.'

/-- Character class `[a-zA-Z0-9_-]` of the section-token pattern. -/
def isWordChar (c : Char) : Bool :=
  c.isAlphanum || c = '_' || c = '-'

/-- Decimal digits to a natural number (`Number(...)` on a digit string). -/
def digitsToNat (ds : Str) : Nat :=
  ds.foldl (fun n c => n * 10 + (c.toNat - '0'.toNat)) 0

/-- Decimal rendering of a natural number, as a char list. -/
def natToStr (n : Nat) : Str := (toString n).data

/-- Evaluation of `header.match(/^([A-Za-z0-9_\-.]+)(?::(\d+))?/)`: the
optional captured name and the optional captured index. -/
def matchHeader (h : Str) : Option Str × Option Nat :=
  let nm := h.takeWhile isNameChar
  if nm = [] then (none, none)
  else
    match h.drop nm.length with
    | ':' :: r2 =>
      let ds := r2.takeWhile Char.isDigit
      if ds = [] then (some nm, none) else (some nm, some (digitsToNat ds))
    | _ => (some nm, none)

/-- JSON values (for the payloads this decoder handles; numbers are modelled
as integers, which covers every numeral the protocol scenarios use). -/
inductive JsonVal where
  | jnull : JsonVal
  | jbool : Bool → JsonVal
  | jnum : Int → JsonVal
  | jstr : Str → JsonVal
  | jarr : List JsonVal → JsonVal
  | jobj : List (Str × JsonVal) → JsonVal
deriving Repr

mutual

/-- Decidable equality for JSON values. -/
def jsonDecEq : (a b : JsonVal) → Decidable (a = b)
  | .jnull, .jnull => .isTrue rfl
  | .jbool x, .jbool y =>
    if h : x = y then .isTrue (by rw [h]) else .isFalse (by simp [h])
  | .jnum x, .jnum y =>
    if h : x = y then .isTrue (by rw [h]) else .isFalse (by simp [h])
  | .jstr x, .jstr y =>
    if h : x = y then .isTrue (by rw [h]) else .isFalse (by simp [h])
  | .jarr xs, .jarr ys =>
    match jsonListDecEq xs ys with
    | .isTrue h => .isTrue (by rw [h])
    | .isFalse h => .isFalse (by simp [h])
  | .jobj xs, .jobj ys =>
    match jsonFieldsDecEq xs ys with
    | .isTrue h => .isTrue (by rw [h])
    | .isFalse h => .isFalse (by simp [h])
  | .jnull, .jbool _ => .isFalse (by simp)
  | .jnull, .jnum _ => .isFalse (by simp)
  | .jnull, .jstr _ => .isFalse (by simp)
  | .jnull, .jarr _ => .isFalse (by simp)
  | .jnull, .jobj _ => .isFalse (by simp)
  | .jbool _, .jnull => .isFalse (by simp)
  | .jbool _, .jnum _ => .isFalse (by simp)
  | .jbool _, .jstr _ => .isFalse (by simp)
  | .jbool _, .jarr _ => .isFalse (by simp)
  | .jbool _, .jobj _ => .isFalse (by simp)
  | .jnum _, .jnull => .isFalse (by simp)
  | .jnum _, .jbool _ => .isFalse (by simp)
  | .jnum _, .jstr _ => .isFalse (by simp)
  | .jnum _, .jarr _ => .isFalse (by simp)
  | .jnum _, .jobj _ => .isFalse (by simp)
  | .jstr _, .jnull => .isFalse (by simp)
  | .jstr _, .jbool _ => .isFalse (by simp)
  | .jstr _, .jnum _ => .isFalse (by simp)
  | .jstr _, .jarr _ => .isFalse (by simp)
  | .jstr _, .jobj _ => .isFalse (by simp)
  | .jarr _, .jnull => .isFalse (by simp)
  | .jarr _, .jbool _ => .isFalse (by simp)
  | .jarr _, .jnum _ => .isFalse (by simp)
  | .jarr _, .jstr _ => .isFalse (by simp)
  | .jarr _, .jobj _ => .isFalse (by simp)
  | .jobj _, .jnull => .isFalse (by simp)
  | .jobj _, .jbool _ => .isFalse (by simp)
  | .jobj _, .jnum _ => .isFalse (by simp)
  | .jobj _, .jstr _ => .isFalse (by simp)
  | .jobj _, .jarr _ => .isFalse (by simp)

/-- Decidable equality for lists of JSON values. -/
def jsonListDecEq : (a b : List JsonVal) → Decidable (a = b)
  | [], [] => .isTrue rfl
  | [], _ :: _ => .isFalse (by simp)
  | _ :: _, [] => .isFalse (by simp)
  | x :: xs, y :: ys =>
    match jsonDecEq x y with
    | .isFalse h => .isFalse (by simp [h])
    | .isTrue h =>
      match jsonListDecEq xs ys with
      | .isTrue h2 => .isTrue (by rw [h, h2])
      | .isFalse h2 => .isFalse (by simp [h2])

/-- Decidable equality for JSON object member lists. -/
def jsonFieldsDecEq : (a b : List (Str × JsonVal)) → Decidable (a = b)
  | [], [] => .isTrue rfl
  | [], _ :: _ => .isFalse (by simp)
  | _ :: _, [] => .isFalse (by simp)
  | (k, v) :: xs, (k2, v2) :: ys =>
    if hk : k = k2 then
      match jsonDecEq v v2 with
      | .isFalse h => .isFalse (by simp [h])
      | .isTrue h =>
        match jsonFieldsDecEq xs ys with
        | .isTrue h2 => .isTrue (by rw [hk, h, h2])
        | .isFalse h2 => .isFalse (by simp [h2])
    else .isFalse (by simp [hk])

end

instance : DecidableEq JsonVal := jsonDecEq

/-- Unescaping of a character following a backslash inside a JSON string
literal (the common single-character escapes). -/
def unescapeChar (c : Char) : Char :=
  if c = 'n' then '\n'
  else if c = 't' then '\t'
  else if c = 'r' then '\r'
  else if c = 'b' then '\x08'
  else if c = 'f' then '\x0c'
  else c

/-- Body of a JSON string literal after the opening quote: the decoded
characters and the remaining input after the closing quote. -/
def parseStrBody : Str → Option (Str × Str)
  | [] => none
  | '"' :: rest => some ([], rest)
  | '\\' :: e :: rest =>
    (parseStrBody rest).map (fun p => (unescapeChar e :: p.1, p.2))
  | '\\' :: [] => none
  | c :: rest => (parseStrBody rest).map (fun p => (c :: p.1, p.2))

/-- Drop leading JSON whitespace. -/
def skipWs (s : Str) : Str := s.dropWhile isWs

/-- Integer numeral at the head of the input. -/
def parseIntLit (s : Str) : Option (Int × Str) :=
  match s with
  | '-' :: rest =>
    let ds := rest.takeWhile Char.isDigit
    if ds = [] then none else some (-(digitsToNat ds : Int), rest.drop ds.length)
  | _ =>
    let ds := s.takeWhile Char.isDigit
    if ds = [] then none else some ((digitsToNat ds : Int), s.drop ds.length)

mutual

/-- Fuel-bounded recursive-descent JSON value parse.

Modelled from the spec: the repository's `tryParseJSONObject` helper lives in
`src/utils.ts`, which is absent from the sources; its behaviour is specified
as "attempt to parse the accumulated argument text as a single JSON object
(trim whitespace; must parse as an object, not an array or scalar)" and by
the repository test `tryParseJSONObject("\x7b\"a\":1\x7d") = ok`,
`"[1,2,3]" = not ok`, `"not json" = not ok`. -/
def parseVal : Nat → Str → Option (JsonVal × Str)
  | 0, _ => none
  | fuel + 1, s =>
    match skipWs s with
    | [] => none
    | 'n' :: rest =>
      if strStarts "ull".data rest then some (.jnull, rest.drop 3) else none
    | 't' :: rest =>
      if strStarts "rue".data rest then some (.jbool true, rest.drop 3) else none
    | 'f' :: rest =>
      if strStarts "alse".data rest then some (.jbool false, rest.drop 4) else none
    | '"' :: rest =>
      (parseStrBody rest).map (fun p => (.jstr p.1, p.2))
    | '\x7b' :: rest => parseMembers fuel (skipWs rest) true []
    | '[' :: rest => parseElems fuel (skipWs rest) true []
    | c :: rest => parseIntLit (c :: rest) |>.map (fun p => (.jnum p.1, p.2))

/-- Members of a JSON object after the opening brace (`first` marks that no
member has been read yet, so a closing brace is allowed). -/
def parseMembers : Nat → Str → Bool → List (Str × JsonVal) →
    Option (JsonVal × Str)
  | 0, _, _, _ => none
  | fuel + 1, s, first, acc =>
    match skipWs s with
    | '\x7d' :: rest => if first then some (.jobj acc.reverse, rest) else none
    | '"' :: rest =>
      match parseStrBody rest with
      | none => none
      | some (key, r1) =>
        match skipWs r1 with
        | ':' :: r2 =>
          match parseVal fuel r2 with
          | none => none
          | some (v, r3) =>
            match skipWs r3 with
            | ',' :: r4 => parseMembers fuel r4 false ((key, v) :: acc)
            | '\x7d' :: r4 => some (.jobj ((key, v) :: acc).reverse, r4)
            | _ => none
        | _ => none
    | _ => none

/-- Elements of a JSON array after the opening bracket. -/
def parseElems : Nat → Str → Bool → List JsonVal → Option (JsonVal × Str)
  | 0, _, _, _ => none
  | fuel + 1, s, first, acc =>
    match skipWs s with
    | ']' :: rest => if first then some (.jarr acc.reverse, rest) else none
    | other =>
      match parseVal fuel other with
      | none => none
      | some (v, r1) =>
        match skipWs r1 with
        | ',' :: r2 => parseElems fuel r2 false (v :: acc)
        | ']' :: r2 => some (.jarr (v :: acc).reverse, r2)
        | _ => none

end

/-- JSON escaping of one character inside a serialized string literal. -/
def escChar (c : Char) : Str :=
  if c = '"' then ['\\', '"']
  else if c = '\\' then ['\\', '\\']
  else [c]

/-- Serialized JSON string literal. -/
def quoteStr (s : Str) : Str := '"' :: (s.flatMap escChar) ++ ['"']

mutual

/-- Deterministic serialization of a JSON value (`JSON.stringify`); used as
the canonical form for dedup keys. -/
def serializeJson : JsonVal → Str
  | .jnull => "null".data
  | .jbool true => "true".data
  | .jbool false => "false".data
  | .jnum n => (toString n).data
  | .jstr s => quoteStr s
  | .jarr xs => '[' :: serializeList xs ++ [']']
  | .jobj fs => '\x7b' :: serializeFields fs ++ ['\x7d']

/-- Comma-joined serialization of array elements. -/
def serializeList : List JsonVal → Str
  | [] => []
  | [x] => serializeJson x
  | x :: y :: xs => serializeJson x ++ ',' :: serializeList (y :: xs)

/-- Comma-joined serialization of object members. -/
def serializeFields : List (Str × JsonVal) → Str
  | [] => []
  | [(k, v)] => quoteStr k ++ ':' :: serializeJson v
  | (k, v) :: m :: fs => quoteStr k ++ ':' :: serializeJson v ++ ',' :: serializeFields (m :: fs)

end

/-- JavaScript `JSON.parse` on a full text: any JSON value, with only
whitespace allowed around it. -/
def parseJsonText (s : Str) : Option JsonVal :=
  match parseVal (2 * s.length + 4) s with
  | some (v, rest) => if skipWs rest = [] then some v else none
  | none => none

/-- Modelled from the spec: `tryParseJSONObject` of the missing
`src/utils.ts` — trim, parse, and accept only a JSON object. -/
def tryParseJSONObject (s : Str) : Option JsonVal :=
  let t := trimStr s
  match parseVal (2 * t.length + 4) t with
  | some (.jobj fs, rest) => if rest = [] then some (.jobj fs) else none
  | _ => none

/-- Match, at the start of `s`, the section-token pattern of
`stripControlTokens`'s first regex `<\|[a-zA-Z0-9_-]+_section_(?:begin|end)\|>`
returning the length of the match.  The word run is tried greedily, longest
first, as a backtracking regex engine does. -/
def sectionSuffixAt (s : Str) : Option Nat :=
  if strStarts "_section_begin|>".data s then some 16
  else if strStarts "_section_end|>".data s then some 14
  else none

/-- Backtracking over the word-run length of the section-token pattern,
from the greedy (longest) candidate downwards; `0` word characters is not a
match. -/
def trySectionW (rest : Str) : Nat → Option Nat
  | 0 => none
  | wlen + 1 =>
    match sectionSuffixAt (rest.drop (wlen + 1)) with
    | some l => some (wlen + 1 + l)
    | none => trySectionW rest wlen

/-- Length of the section-token regex match at the start of `s`, if any. -/
def matchSectionAt (s : Str) : Option Nat :=
  match s with
  | c1 :: c2 :: rest =>
    if c1 = '<' then
      if c2 = '|' then
        (trySectionW rest (rest.takeWhile isWordChar).length).map (· + 2)
      else none
    else none
  | _ => none

/-- Length of the tool-token regex match
`<\|tool_call_(?:argument_)?(?:begin|end)\|>` at the start of `s`, if any
(alternatives in backtracking order). -/
def matchToolAt (s : Str) : Option Nat :=
  if strStarts ARG_BEGIN_TOK s then some ARG_BEGIN_TOK.length
  else if strStarts "<|tool_call_argument_end|>".data s then some 26
  else if strStarts BEGIN_TOK s then some BEGIN_TOK.length
  else if strStarts END_TOK s then some END_TOK.length
  else none

/-- One step-bounded global-regex removal pass: scan left to right, delete
each match, continue after it.  Every step consumes at least one character,
so fuel equal to the length of the input is exact. -/
def removeMatchesFuel (m : Str → Option Nat) : Nat → Str → Str
  | 0, s => s
  | fuel + 1, s =>
    match s with
    | [] => []
    | c :: rest =>
      match m (c :: rest) with
      | some (l + 1) => removeMatchesFuel m fuel ((c :: rest).drop (l + 1))
      | _ => c :: removeMatchesFuel m fuel rest

/-- One global-regex removal pass (`text.replace(re, "")`). -/
def removeMatches (m : Str → Option Nat) (s : Str) : Str :=
  removeMatchesFuel m s.length s

/-- The source's `stripControlTokens`: remove section tokens, then tool-call
tokens, from streamed text. -/
def stripControlTokens (s : Str) : Str :=
  removeMatches matchToolAt (removeMatches matchSectionAt s)

/-- An observable output event of the decoder (`progress.report`).  A
generated random id is modelled as `none`; a server-supplied id as `some`. -/
inductive EmittedEvent where
  | text : Str → EmittedEvent
  | thinking : Str → EmittedEvent
  | toolCall : Option Str → Str → JsonVal → EmittedEvent
deriving DecidableEq, Repr

/-- Entry of `_toolCallBuffers` (structured tool call being assembled). -/
structure ToolCallBuf where
  id : Option Str
  name : Option Str
  args : Str
deriving DecidableEq, Repr

/-- The `_textToolActive` record of the inline text tool-call parser. -/
structure TextToolActive where
  name : Option Str
  index : Option Nat
  argBuffer : Str
  emitted : Bool
deriving DecidableEq, Repr

/-- All mutable per-session decoder fields of `ChatGLMRouterProvider`. -/
structure SessionState where
  toolCallBuffers : List (Nat × ToolCallBuf)
  completedToolCallIndices : List Nat
  hasEmittedAssistantText : Bool
  emittedBeginToolCallsHint : Bool
  textToolParserBuffer : Str
  textToolActive : Option TextToolActive
  emittedTextToolCallKeys : List Str
  emittedTextToolCallIds : List Str
  outputTokenCount : Nat
deriving DecidableEq, Repr

/-- The field values the constructor establishes. -/
def initialSessionState : SessionState :=
  ⟨[], [], false, false, [], none, [], [], 0⟩

/-- Lookup in a JavaScript `Map<number, _>` modelled as an insertion-ordered
association list. -/
def mapGet (m : List (Nat × ToolCallBuf)) (i : Nat) : Option ToolCallBuf :=
  (m.find? (fun p => p.1 = i)).map (·.2)

/-- `Map.set`: update in place if present (keeping the insertion position),
else append. -/
def mapSet : List (Nat × ToolCallBuf) → Nat → ToolCallBuf → List (Nat × ToolCallBuf)
  | [], i, b => [(i, b)]
  | (j, c) :: rest, i, b =>
    if j = i then (i, b) :: rest else (j, c) :: mapSet rest i b

/-- `Map.delete`. -/
def mapDelete (m : List (Nat × ToolCallBuf)) (i : Nat) : List (Nat × ToolCallBuf) :=
  m.filter (fun p => p.1 ≠ i)

/-- `Set.add` of a JavaScript `Set`, preserving insertion order. -/
def addToSet (l : List Str) (k : Str) : List Str :=
  if k ∈ l then l else l ++ [k]

/-- `Set.add` for the completed-indices set. -/
def addIdxToSet (l : List Nat) (i : Nat) : List Nat :=
  if i ∈ l then l else l ++ [i]

/-- `Math.ceil(len / 4)`, the output-token estimate per fragment. -/
def ceilDiv4 (n : Nat) : Nat := (n + 3) / 4

/-- Result of `emitTextToolCallIfValid`: the updated dedup registries and the
reported event, if any (the source's boolean result is `event.isSome`). -/
structure EmitTextResult where
  keys : List Str
  ids : List Str
  event : Option EmittedEvent
deriving DecidableEq, Repr

/-- The source's `emitTextToolCallIfValid`: parse the argument text, dedup by
`(name, index)` when an index was declared and by `(name, canonical)`
otherwise, insert the canonical key, and report the call. -/
def emitTextToolCallIfValid (keys ids : List Str) (callName : Option Str)
    (callIndex : Option Nat) (argText : Str) : EmitTextResult :=
  let name := callName.getD "unknown_tool".data
  match tryParseJSONObject argText with
  | none => ⟨keys, ids, none⟩
  | some v =>
    let canonical := serializeJson v
    let key := name ++ ':' :: canonical
    match callIndex with
    | some i =>
      let idKey := name ++ ':' :: natToStr i
      if idKey ∈ ids then ⟨keys, ids, none⟩
      else ⟨addToSet keys key, addToSet ids idKey, some (.toolCall none name v)⟩
    | none =>
      if key ∈ keys then ⟨keys, ids, none⟩
      else ⟨addToSet keys key, ids, some (.toolCall none name v)⟩

/-- Local state of the `while (data.length > 0)` loop of
`processTextContent`.  `parserBuffer` mirrors `_textToolParserBuffer`
including the in-loop assignments (which the final assignment after the loop
overwrites with the loop's final `data`). -/
structure LoopSt where
  data : Str
  active : Option TextToolActive
  keys : List Str
  ids : List Str
  parserBuffer : Str
  visibleOut : Str
  events : List EmittedEvent
  emittedAny : Bool
deriving DecidableEq, Repr

/-- Length of the longest suffix of `data` that is a strict prefix of the
begin marker (the `longestPartialPrefix` closure), searching from `k`
downwards. -/
def lppAux (data : Str) : Nat → Nat
  | 0 => 0
  | k + 1 =>
    if (BEGIN_TOK.take (k + 1)).isSuffixOf data then k + 1 else lppAux data k

/-- The `longestPartialPrefix` computation of the Scanning state. -/
def longestPartialPrefix (data : Str) : Nat :=
  lppAux data (min (BEGIN_TOK.length - 1) (data.length - 1))

/-- One iteration structure of `processTextContent`'s loop, fuel-bounded
(each continuing iteration consumes at least one full marker, so any fuel
above `data.length` suffices). -/
def inlineLoop : Nat → LoopSt → LoopSt
  | 0, st => st
  | fuel + 1, st =>
    if st.data = [] then st
    else
      match st.active with
      | none =>
        match strIndexOf BEGIN_TOK st.data with
        | none =>
          let lpp := longestPartialPrefix st.data
          if lpp > 0 then
            let visible := st.data.take (st.data.length - lpp)
            let vo := if visible ≠ [] then st.visibleOut ++ stripControlTokens visible
                      else st.visibleOut
            { st with visibleOut := vo,
                      parserBuffer := st.data.drop (st.data.length - lpp),
                      data := [] }
          else
            { st with visibleOut := st.visibleOut ++ stripControlTokens st.data,
                      data := [] }
        | some b =>
          let pre := st.data.take b
          let vo := if pre ≠ [] then st.visibleOut ++ stripControlTokens pre
                    else st.visibleOut
          let d1 := st.data.drop (b + BEGIN_TOK.length)
          let a := strIndexOf ARG_BEGIN_TOK d1
          let e := strIndexOf END_TOK d1
          let delim : Option (Nat × Bool) :=
            match a, e with
            | some ai, some ei => if ai < ei then some (ai, true) else some (ei, false)
            | some ai, none => some (ai, true)
            | none, some ei => some (ei, false)
            | none, none => none
          match delim with
          | none =>
            { st with visibleOut := vo, parserBuffer := BEGIN_TOK ++ d1, data := [] }
          | some (delimIdx, argFirst) =>
            let header := trimStr (d1.take delimIdx)
            let hm := matchHeader header
            if argFirst then
              inlineLoop fuel
                { st with visibleOut := vo,
                          data := d1.drop (delimIdx + ARG_BEGIN_TOK.length),
                          active := some ⟨hm.1, hm.2, [], false⟩ }
            else
              let res := emitTextToolCallIfValid st.keys st.ids hm.1 hm.2 "\x7b\x7d".data
              match res.event with
              | some ev =>
                inlineLoop fuel
                  { st with visibleOut := vo,
                            data := d1.drop (delimIdx + END_TOK.length),
                            active := none, keys := res.keys, ids := res.ids,
                            events := st.events ++ [ev], emittedAny := true }
              | none =>
                inlineLoop fuel
                  { st with visibleOut := vo,
                            data := d1.drop (delimIdx + END_TOK.length),
                            active := none, keys := res.keys, ids := res.ids }
      | some act =>
        match strIndexOf END_TOK st.data with
        | none =>
          let act2 : TextToolActive := { act with argBuffer := act.argBuffer ++ st.data }
          if act2.emitted then { st with active := some act2, data := [] }
          else
            let res := emitTextToolCallIfValid st.keys st.ids act2.name act2.index act2.argBuffer
            match res.event with
            | some ev =>
              { st with active := some { act2 with emitted := true },
                        keys := res.keys, ids := res.ids,
                        events := st.events ++ [ev], emittedAny := true, data := [] }
            | none =>
              { st with active := some act2, keys := res.keys, ids := res.ids, data := [] }
        | some e2 =>
          let act2 : TextToolActive := { act with argBuffer := act.argBuffer ++ st.data.take e2 }
          let d2 := st.data.drop (e2 + END_TOK.length)
          if act2.emitted then inlineLoop fuel { st with active := none, data := d2 }
          else
            let res := emitTextToolCallIfValid st.keys st.ids act2.name act2.index act2.argBuffer
            match res.event with
            | some ev =>
              inlineLoop fuel
                { st with active := none, data := d2, keys := res.keys, ids := res.ids,
                          events := st.events ++ [ev], emittedAny := true }
            | none =>
              inlineLoop fuel
                { st with active := none, data := d2, keys := res.keys, ids := res.ids }

/-- The source's `processTextContent`: run the inline-multiplexer loop over
`_textToolParserBuffer + input`, then report the accumulated visible text and
store the loop's final `data` (always empty) back into the parser buffer.
Returns the updated session state, the reported events in order, and the
`(emittedText, emittedAny)` flags. -/
def processTextContent (st : SessionState) (input : Str) :
    SessionState × List EmittedEvent × Bool × Bool :=
  let data0 := st.textToolParserBuffer ++ input
  let ls0 : LoopSt :=
    ⟨data0, st.textToolActive, st.emittedTextToolCallKeys,
     st.emittedTextToolCallIds, st.textToolParserBuffer, [], [], false⟩
  let ls := inlineLoop (data0.length + 1) ls0
  let emittedText := ls.visibleOut ≠ []
  let events := ls.events ++ (if ls.visibleOut ≠ [] then [.text ls.visibleOut] else [])
  let st2 := { st with textToolParserBuffer := ls.data,
                       textToolActive := ls.active,
                       emittedTextToolCallKeys := ls.keys,
                       emittedTextToolCallIds := ls.ids }
  (st2, events, emittedText, ls.emittedAny || emittedText)

/-- The source's `tryEmitBufferedToolCall`: emit the buffered structured call
at `index` when its name is present (nonempty, per JavaScript truthiness) and
its accumulated arguments parse as a JSON object; insert the canonical dedup
key before reporting; then delete the buffer and mark the index completed. -/
def tryEmitBufferedToolCall (st : SessionState) (index : Nat) :
    SessionState × List EmittedEvent :=
  match mapGet st.toolCallBuffers index with
  | none => (st, [])
  | some buf =>
    match buf.name with
    | none => (st, [])
    | some nm =>
      if nm = [] then (st, [])
      else
        match tryParseJSONObject buf.args with
        | none => (st, [])
        | some v =>
          let canonical := serializeJson v
          ({ st with
              emittedTextToolCallKeys :=
                addToSet st.emittedTextToolCallKeys (nm ++ ':' :: canonical),
              toolCallBuffers := mapDelete st.toolCallBuffers index,
              completedToolCallIndices :=
                addIdxToSet st.completedToolCallIndices index },
           [.toolCall buf.id nm v])

/-- Iteration of `flushToolCallBuffers` over a snapshot of the buffer
entries.  A parse failure with `throwOnInvalid` aborts the iteration with the
error flag set (the thrown error), keeping the state changes and events
already produced. -/
def flushAux (st : SessionState) :
    List (Nat × ToolCallBuf) → Bool → SessionState × List EmittedEvent × Bool
  | [], _ => (st, [], false)
  | (idx, buf) :: rest, throwOnInvalid =>
    match tryParseJSONObject buf.args with
    | none =>
      if throwOnInvalid then (st, [], true)
      else flushAux st rest throwOnInvalid
    | some v =>
      let nm := buf.name.getD "unknown_tool".data
      let st2 := { st with
        emittedTextToolCallKeys :=
          addToSet st.emittedTextToolCallKeys (nm ++ ':' :: serializeJson v),
        toolCallBuffers := mapDelete st.toolCallBuffers idx,
        completedToolCallIndices := addIdxToSet st.completedToolCallIndices idx }
      let r := flushAux st2 rest throwOnInvalid
      (r.1, .toolCall buf.id nm v :: r.2.1, r.2.2)

/-- The source's `flushToolCallBuffers`. -/
def flushToolCallBuffers (st : SessionState) (throwOnInvalid : Bool) :
    SessionState × List EmittedEvent × Bool :=
  if st.toolCallBuffers = [] then (st, [], false)
  else flushAux st st.toolCallBuffers throwOnInvalid

/-- The source's `flushActiveTextToolCall` (run on the `[DONE]` payload):
emit the dangling inline call if its buffer parses; note that on a parse
failure the active call is left in place. -/
def flushActiveTextToolCall (st : SessionState) : SessionState × List EmittedEvent :=
  match st.textToolActive with
  | none => (st, [])
  | some act =>
    match tryParseJSONObject act.argBuffer with
    | none => (st, [])
    | some _ =>
      let res := emitTextToolCallIfValid st.emittedTextToolCallKeys
        st.emittedTextToolCallIds act.name act.index act.argBuffer
      ({ st with textToolActive := none,
                 emittedTextToolCallKeys := res.keys,
                 emittedTextToolCallIds := res.ids },
       match res.event with
       | some ev => [ev]
       | none => [])

/-- A structured tool-call fragment of one delta (`tc` entry of
`deltaObj.tool_calls`), after defensive field extraction. -/
structure ToolCallFragment where
  index : Nat
  id : Option Str
  name : Option Str
  args : Option Str
deriving DecidableEq, Repr

/-- The fields `processDelta` reads from one parsed SSE payload's first
choice, after defensive extraction. -/
structure StreamDelta where
  thinking : Option Str
  content : Option Str
  toolCalls : Option (List ToolCallFragment)
  finishReason : Option Str
deriving DecidableEq, Repr

/-- The per-fragment accumulation loop of `processDelta`: skip completed
indices, merge id/name (JavaScript truthiness: only nonempty strings are
merged), append argument text (counting output tokens), then attempt an
incremental emit. -/
def processFragments (st : SessionState) :
    List ToolCallFragment → SessionState × List EmittedEvent
  | [] => (st, [])
  | tc :: rest =>
    if tc.index ∈ st.completedToolCallIndices then
      processFragments st rest
    else
      let buf0 := (mapGet st.toolCallBuffers tc.index).getD ⟨none, none, []⟩
      let buf1 := match tc.id with
        | some s => if s ≠ [] then { buf0 with id := some s } else buf0
        | none => buf0
      let buf2 := match tc.name with
        | some s => if s ≠ [] then { buf1 with name := some s } else buf1
        | none => buf1
      let (buf3, cnt) := match tc.args with
        | some a => ({ buf2 with args := buf2.args ++ a }, ceilDiv4 a.length)
        | none => (buf2, 0)
      let st2 := { st with
        toolCallBuffers := mapSet st.toolCallBuffers tc.index buf3,
        outputTokenCount := st.outputTokenCount + cnt }
      let (st3, evs) := tryEmitBufferedToolCall st2 tc.index
      let r := processFragments st3 rest
      (r.1, evs ++ r.2)

/-- The thinking/content/tool_calls phases of `processDelta`, before the
finish-reason check. -/
def processDeltaAccum (st : SessionState) (d : StreamDelta) :
    SessionState × List EmittedEvent :=
  let evs1 : List EmittedEvent :=
    match d.thinking with
    | some t => if t ≠ [] then [.thinking t] else []
    | none => []
  let (st1, evs2) :=
    match d.content with
    | some c =>
      if c = [] then (st, ([] : List EmittedEvent))
      else
        let r := processTextContent st c
        let stA := if r.2.2.1 then { r.1 with hasEmittedAssistantText := true } else r.1
        ({ stA with outputTokenCount := stA.outputTokenCount + ceilDiv4 c.length }, r.2.1)
    | none => (st, [])
  let (st2, evs3) :=
    match d.toolCalls with
    | none => (st1, ([] : List EmittedEvent))
    | some tcs =>
      let (stH, evsH) :=
        if !st1.emittedBeginToolCallsHint && st1.hasEmittedAssistantText && tcs.length > 0 then
          ({ st1 with emittedBeginToolCallsHint := true }, [EmittedEvent.text " ".data])
        else (st1, ([] : List EmittedEvent))
      let r := processFragments stH tcs
      (r.1, evsH ++ r.2)
  (st2, evs1 ++ evs2 ++ evs3)

/-- The source's `processDelta` on an extracted delta: accumulation phases,
then — on `finish_reason` `"tool_calls"` or `"stop"` — a flush with
`throwOnInvalid = true`.  The `Bool` is the thrown-decode-error flag; events
reported before the throw are retained. -/
def processDelta (st : SessionState) (d : StreamDelta) :
    SessionState × List EmittedEvent × Bool :=
  let (st2, evs) := processDeltaAccum st d
  match d.finishReason with
  | some fr =>
    if fr = "tool_calls".data || fr = "stop".data then
      let r := flushToolCallBuffers st2 true
      (r.1, evs ++ r.2.1, r.2.2)
    else (st2, evs, false)
  | none => (st2, evs, false)

/-- Field lookup on a parsed JSON object; `JSON.parse` keeps the last
duplicate key, hence the reversed search.  Non-objects have no fields. -/
def jField (v : JsonVal) (k : Str) : Option JsonVal :=
  match v with
  | .jobj fs => (fs.reverse.find? (fun p => p.1 = k)).map (·.2)
  | _ => none

/-- Extraction of the thinking text from the `thinking` payload field (a
string, or an object with a `text` field; anything else yields no text). -/
def extractThinkingText (v : JsonVal) : Str :=
  match v with
  | .jstr s => s
  | .jobj _ =>
    match jField v "text".data with
    | some (.jstr s) => s
    | _ => []
  | _ => []

/-- Defensive extraction of one `tool_calls` entry (`(tc.index as number) ??
0`; id/name/arguments only when they are strings). -/
def fragOfJson (v : JsonVal) : ToolCallFragment :=
  { index :=
      match jField v "index".data with
      | some (.jnum n) => n.toNat
      | _ => 0
    id :=
      match jField v "id".data with
      | some (.jstr s) => some s
      | _ => none
    name :=
      match (jField v "function".data).bind (jField · "name".data) with
      | some (.jstr s) => some s
      | _ => none
    args :=
      match (jField v "function".data).bind (jField · "arguments".data) with
      | some (.jstr s) => some s
      | _ => none }

/-- Defensive extraction of the fields `processDelta` reads from
`choices[0]`.  `none` models the early return when there is no first choice.
(JavaScript coercions of non-string `content` and non-array `tool_calls` are
not modelled; the decoder only ever receives strings and arrays there.) -/
def deltaOfJson (parsed : JsonVal) : Option StreamDelta :=
  match jField parsed "choices".data with
  | some (.jarr (choice :: _)) =>
    let deltaObj := jField choice "delta".data
    let thinkRaw : Option JsonVal :=
      match jField choice "thinking".data with
      | some v => if v = .jnull then deltaObj.bind (jField · "thinking".data) else some v
      | none => deltaObj.bind (jField · "thinking".data)
    some
      { thinking := thinkRaw.map extractThinkingText
        content :=
          match deltaObj.bind (jField · "content".data) with
          | some (.jstr s) => some s
          | _ => none
        toolCalls :=
          match deltaObj.bind (jField · "tool_calls".data) with
          | some (.jarr l) => some (l.map fragOfJson)
          | _ => none
        finishReason :=
          match jField choice "finish_reason".data with
          | some (.jstr s) => some s
          | _ => none }
  | _ => none

/-- `processDelta` applied to a parsed SSE payload. -/
def processDeltaJson (st : SessionState) (v : JsonVal) :
    SessionState × List EmittedEvent × Bool :=
  match deltaOfJson v with
  | none => (st, [], false)
  | some d => processDelta st d

/-- Handling of one complete SSE line by the read loop of
`processStreamingResponse`: for `data: ` lines, either the `[DONE]`
double-flush or a JSON parse followed by `processDelta` — whose thrown error
the surrounding `try/catch` swallows ("Silently ignore malformed SSE lines"),
keeping the state changes and events already produced. -/
def processSSELine (st : SessionState) (line : Str) : SessionState × List EmittedEvent :=
  if strStarts "data: ".data line then
    let dat := line.drop 6
    if dat = "[DONE]".data then
      let r1 := flushToolCallBuffers st false
      let r2 := flushActiveTextToolCall r1.1
      (r2.1, r1.2.1 ++ r2.2)
    else
      match parseJsonText dat with
      | none => (st, [])
      | some v =>
        let r := processDeltaJson st v
        (r.1, r.2.1)
  else (st, [])

/-- Split a buffered text on newlines; JavaScript `split("\n")` keeps a final
(possibly empty) segment, which the read loop pops back into the buffer. -/
def splitNl : Str → List Str
  | [] => [[]]
  | '\n' :: rest => [] :: splitNl rest
  | c :: rest =>
    match splitNl rest with
    | l :: ls => (c :: l) :: ls
    | [] => [[c]]

/-- Process the complete lines of one decoded chunk. -/
def processLines (st : SessionState) : List Str → SessionState × List EmittedEvent
  | [] => (st, [])
  | l :: ls =>
    let r1 := processSSELine st l
    let r2 := processLines r1.1 ls
    (r2.1, r1.2 ++ r2.2)

/-- One `reader.read()` round of the stream loop: append the chunk to the
line buffer, split, keep the trailing partial line, process the rest. -/
def processChunk (st : SessionState) (lineBuffer : Str) (chunk : Str) :
    SessionState × Str × List EmittedEvent :=
  let parts := splitNl (lineBuffer ++ chunk)
  let r := processLines st parts.dropLast
  (r.1, parts.getLastD [], r.2)

/-- The `finally` block of `processStreamingResponse`: the per-session fields
it clears.  Note that `_emittedTextToolCallIds` and `_outputTokenCount` are
not among them. -/
def finallyReset (st : SessionState) : SessionState :=
  { st with toolCallBuffers := [], completedToolCallIndices := [],
            hasEmittedAssistantText := false, emittedBeginToolCallsHint := false,
            textToolParserBuffer := [], textToolActive := none,
            emittedTextToolCallKeys := [] }

/-- The read loop of `processStreamingResponse` over a finite chunk sequence
ending with a clean end-of-stream, followed by the `finally` reset. -/
def processStreamingResponse (st : SessionState) (chunks : List Str) :
    SessionState × List EmittedEvent :=
  let r := chunks.foldl
    (fun (acc : SessionState × Str × List EmittedEvent) chunk =>
      let r := processChunk acc.1 acc.2.1 chunk
      (r.1, r.2.1, acc.2.2 ++ r.2.2))
    (st, [], [])
  (finallyReset r.1, r.2.2)

/-- The state reset at the start of `provideLanguageModelChatResponse`
(lines 302–310), which clears every per-session decoder field including the
two the `finally` block leaves behind. -/
def resetSessionState (st : SessionState) : SessionState :=
  { st with toolCallBuffers := [], completedToolCallIndices := [],
            hasEmittedAssistantText := false, emittedBeginToolCallsHint := false,
            textToolParserBuffer := [], textToolActive := none,
            emittedTextToolCallKeys := [], emittedTextToolCallIds := [],
            outputTokenCount := 0 }

/-- Sequential `processDelta` over several deltas, stopping at a thrown
decode error (as the exception aborts the read loop's try block). -/
def runDeltas : SessionState → List StreamDelta → SessionState × List EmittedEvent × Bool
  | st, [] => (st, [], false)
  | st, d :: ds =>
    let r := processDelta st d
    if r.2.2 then (r.1, r.2.1, true)
    else
      let r2 := runDeltas r.1 ds
      (r2.1, r.2.1 ++ r2.2.1, r2.2.2)

/-- Sequential `processTextContent` over successive text fragments. -/
def runTextChunks : SessionState → List Str → SessionState × List EmittedEvent
  | st, [] => (st, [])
  | st, c :: cs =>
    let r := processTextContent st c
    let r2 := runTextChunks r.1 cs
    (r2.1, r.2.1 ++ r2.2)

/-- The parsed object of Scenario B's arguments. -/
def qxObj : JsonVal := .jobj [("q".data, .jstr "x".data)]

/-- The parsed object of Scenario C's arguments. -/
def xObj : JsonVal := .jobj [("x".data, .jnum 1)]

/-- The empty JSON object. -/
def emptyObj : JsonVal := .jobj []

/-- Scenario B, fragment 1: index 0, name `search`, argument prefix. -/
def scenB1 : StreamDelta :=
  ⟨none, none, some [⟨0, none, some "search".data, some "\x7b\"q\":".data⟩], none⟩

/-- Scenario B, fragment 2: index 0, argument suffix. -/
def scenB2 : StreamDelta :=
  ⟨none, none, some [⟨0, none, none, some "\"x\"\x7d".data⟩], none⟩

/-- Scenario B, terminal marker `tool_calls`. -/
def scenB3 : StreamDelta := ⟨none, none, none, some "tool_calls".data⟩

/-- A later fragment for Scenario B's already-completed index 0. -/
def scenB4 : StreamDelta :=
  ⟨none, none, some [⟨0, none, some "search".data, some "\x7b\x7d".data⟩], none⟩

/-- Scenario C's full inline text. -/
def c3Text : Str :=
  BEGIN_TOK ++ "foo".data ++ ARG_BEGIN_TOK ++ serializeJson xObj ++ END_TOK ++ " done".data

/-- Scenario C, first chunk. -/
def c7Chunk1 : Str := BEGIN_TOK ++ "foo".data ++ ARG_BEGIN_TOK ++ "\x7b\"x\":".data

/-- Scenario C, second chunk. -/
def c7Chunk2 : Str := "1\x7d".data ++ END_TOK ++ " done".data

/-- A delta whose text carries a complete inline call `f` with arguments
`\x7b\x7d`. -/
def c1InlineDelta : StreamDelta :=
  ⟨none, some (BEGIN_TOK ++ "f".data ++ ARG_BEGIN_TOK ++ "\x7b\x7d".data ++ END_TOK),
   none, none⟩

/-- A delta whose structured channel carries the same logical call `f` with
arguments `\x7b\x7d`. -/
def c1StructDelta : StreamDelta :=
  ⟨none, none, some [⟨0, none, some "f".data, some "\x7b\x7d".data⟩], none⟩

/-- A delta with an unparseable pending structured call and the normal-stop
terminal marker. -/
def c2StopDelta : StreamDelta :=
  ⟨none, none, some [⟨0, none, some "g".data, some "\x7b".data⟩], some "stop".data⟩

/-- An SSE payload whose delta text carries an inline call with a declared
index, so that processing it populates `_emittedTextToolCallIds`. -/
def c9DeltaJson : JsonVal :=
  .jobj [("choices".data, .jarr [.jobj [("delta".data,
    .jobj [("content".data,
      .jstr (BEGIN_TOK ++ "f:0".data ++ ARG_BEGIN_TOK ++ "\x7b\x7d".data ++ END_TOK))])]])]

/-- One complete SSE chunk carrying `c9DeltaJson`. -/
def c9Chunk : Str := "data: ".data ++ serializeJson c9DeltaJson ++ ['\n']

/-- A begin marker followed by a long header with no delimiter yet. -/
def c4Input : Str := BEGIN_TOK ++ List.replicate 30 'a'

/-- Text whose two halves of a section token flank another section token. -/
def c5Input : Str :=
  "<|a_sec".data ++ "<|b_section_begin|>".data ++ "tion_begin|>".data

/-- A nameless structured buffer whose arguments are already a complete JSON
object. -/
def c10Buf : ToolCallBuf := ⟨none, none, "\x7b\x7d".data⟩

/-- A session holding only the nameless buffer at index 0. -/
def c10State : SessionState :=
  { initialSessionState with toolCallBuffers := [(0, c10Buf)] }

/-- A representative of the backend section-begin token family. -/
def sectionBeginTok : Str := "<|ab_section_begin|>".data

/-- A representative of the backend section-end token family. -/
def sectionEndTok : Str := "<|ab_section_end|>".data

/-- The control tokens of the stripping claim: the three tool-call sentinels
and representatives of the section-delimiter family. -/
def c5TokenList : List Str :=
  [BEGIN_TOK, ARG_BEGIN_TOK, END_TOK, sectionBeginTok, sectionEndTok]

set_option maxRecDepth 100000

/-- Added key is a member of the updated registry. -/
theorem mem_addToSet_self (l : List Str) (k : Str) : k ∈ addToSet l k := by
  unfold addToSet
  split <;> simp_all

/-- Registry membership is preserved by insertion. -/
theorem mem_addToSet_of_mem {l : List Str} {k : Str} (k2 : Str) (h : k ∈ l) :
    k ∈ addToSet l k2 := by
  unfold addToSet
  split <;> simp_all

/-- The prefix test agrees with the prefix order. -/
theorem strStarts_prefix_iff : ∀ {p s : Str}, strStarts p s = true ↔ p <+: s := by
  intro p
  induction p with
  | nil => intro s; simp [strStarts]
  | cons a as ih =>
    intro s
    cases s with
    | nil => simp [strStarts]
    | cons b bs =>
      simp only [strStarts, Bool.and_eq_true, beq_iff_eq, List.cons_prefix_cons, ih]

/-- A found occurrence fits inside the searched string. -/
theorem strIndexOf_bound {pat s : Str} {i : Nat} (h : strIndexOf pat s = some i) :
    i + pat.length ≤ s.length := by
  induction s generalizing i with
  | nil =>
    simp only [strIndexOf] at h
    split at h
    · rename_i hp
      cases h
      simpa using (strStarts_prefix_iff.mp hp).length_le
    · cases h
  | cons c rest ih =>
    simp only [strIndexOf] at h
    split at h
    · rename_i hp
      cases h
      simpa using (strStarts_prefix_iff.mp hp).length_le
    · rw [Option.map_eq_some'] at h
      obtain ⟨j, hj, hji⟩ := h
      have := ih hj
      simp only [List.length_cons]
      omega

/-- With fuel above the data length, the inline loop always terminates via a
branch that empties `data` (every continuing branch consumes a full
marker). -/
theorem inlineLoop_data_nil : ∀ (fuel : Nat) (st : LoopSt),
    st.data.length < fuel → (inlineLoop fuel st).data = [] := by
  intro fuel
  induction fuel with
  | zero => intro st h; omega
  | succ f ih =>
    intro st h
    rw [inlineLoop]
    by_cases hd : st.data = []
    · simp [hd]
    · rw [if_neg hd]
      have h19 : BEGIN_TOK.length = 19 := by decide
      have h17 : END_TOK.length = 17 := by decide
      split
      · split
        · dsimp only
          split <;> simp
        · rename_i b hb
          have hble := strIndexOf_bound hb
          dsimp only
          split
          · simp
          · split
            · apply ih
              simp only [List.length_drop]
              omega
            · split <;> (apply ih; simp only [List.length_drop]; omega)
      · split
        · dsimp only
          split
          · simp
          · split <;> simp
        · rename_i e2 he
          have hele := strIndexOf_bound he
          dsimp only
          split
          · apply ih
            simp only [List.length_drop]
            omega
          · split <;> (apply ih; simp only [List.length_drop]; omega)

/-- A list passes the prefix test against itself followed by anything. -/
theorem strStarts_self_append (p t : Str) : strStarts p (p ++ t) = true :=
  strStarts_prefix_iff.mpr (List.prefix_append p t)

/-- Keys already in the registry survive the terminal flush. -/
theorem flushAux_keys_mono :
    ∀ (l : List (Nat × ToolCallBuf)) (st : SessionState) (b : Bool) (k : Str),
    k ∈ st.emittedTextToolCallKeys → k ∈ (flushAux st l b).1.emittedTextToolCallKeys := by
  intro l
  induction l with
  | nil => intro st b k h; simpa [flushAux] using h
  | cons p rest ih =>
    intro st b k h
    obtain ⟨idx, buf⟩ := p
    cases hp : tryParseJSONObject buf.args with
    | none =>
      simp only [flushAux, hp]
      split
      · simpa using h
      · exact ih _ _ _ h
    | some v =>
      simp only [flushAux, hp]
      exact ih _ _ _ (mem_addToSet_of_mem _ h)

/-- Every call the terminal flush reports has its canonical dedup key in the
resulting registry. -/
theorem flushAux_event_key :
    ∀ (l : List (Nat × ToolCallBuf)) (st : SessionState) (b : Bool)
      (id2 : Option Str) (name2 : Str) (v2 : JsonVal),
    (EmittedEvent.toolCall id2 name2 v2) ∈ (flushAux st l b).2.1 →
    (name2 ++ ':' :: serializeJson v2) ∈ (flushAux st l b).1.emittedTextToolCallKeys := by
  intro l
  induction l with
  | nil => intro st b id2 name2 v2 h; simp [flushAux] at h
  | cons p rest ih =>
    intro st b id2 name2 v2 h
    obtain ⟨idx, buf⟩ := p
    cases hp : tryParseJSONObject buf.args with
    | none =>
      simp only [flushAux, hp] at h ⊢
      cases b with
      | true => simp at h
      | false =>
        simp only [Bool.false_eq_true, if_false] at h ⊢
        exact ih _ _ _ _ _ h
    | some v =>
      simp only [flushAux, hp] at h ⊢
      rcases List.mem_cons.mp h with hev | hmem
      · simp only [EmittedEvent.toolCall.injEq] at hev
        obtain ⟨h1, h2, h3⟩ := hev
        subst h2
        subst h3
        exact flushAux_keys_mono _ _ _ _ (mem_addToSet_self _ _)
      · exact ih _ _ _ _ _ hmem

/-- The terminal flush with `throwOnInvalid` raises exactly when some
snapshot entry's arguments fail to parse. -/
theorem flushAux_err_iff :
    ∀ (l : List (Nat × ToolCallBuf)) (st : SessionState),
    (flushAux st l true).2.2 = true ↔ ∃ p ∈ l, tryParseJSONObject p.2.args = none := by
  intro l
  induction l with
  | nil => intro st; simp [flushAux]
  | cons p rest ih =>
    intro st
    obtain ⟨idx, buf⟩ := p
    cases hp : tryParseJSONObject buf.args with
    | none => simp [flushAux, hp]
    | some v => simp [flushAux, hp, ih]

/-- The opportunistic flush never raises. -/
theorem flushAux_nothrow :
    ∀ (l : List (Nat × ToolCallBuf)) (st : SessionState),
    (flushAux st l false).2.2 = false := by
  intro l
  induction l with
  | nil => intro st; simp [flushAux]
  | cons p rest ih =>
    intro st
    obtain ⟨idx, buf⟩ := p
    cases hp : tryParseJSONObject buf.args with
    | none => simp [flushAux, hp, ih]
    | some v => simp [flushAux, hp, ih]

/-- The prefix test fails on mismatched heads. -/
theorem strStarts_cons_ne {c0 x : Char} (pt rest : Str) (hx : x ≠ c0) :
    strStarts (c0 :: pt) (x :: rest) = false := by
  have hbeq : (c0 == x) = false := beq_eq_false_iff_ne.mpr (fun he => hx he.symm)
  simp [strStarts, hbeq]

/-- A passing prefix test means the occurrence search answers zero. -/
theorem strIndexOf_of_starts {pat s : Str} (h : strStarts pat s = true) :
    strIndexOf pat s = some 0 := by
  cases s with
  | nil => simp [strIndexOf, h]
  | cons c rest => simp [strIndexOf, h]

/-- First occurrence right after a prefix free of the pattern's head
character. -/
theorem strIndexOf_append {pat : Str} (c0 : Char) (hp : pat.head? = some c0) :
    ∀ (xs ys : Str), (∀ c ∈ xs, c ≠ c0) → strStarts pat ys = true →
    strIndexOf pat (xs ++ ys) = some xs.length := by
  intro xs
  induction xs with
  | nil => intro ys _ hys; simpa using strIndexOf_of_starts hys
  | cons x xs2 ih =>
    intro ys hxs hys
    have hx : x ≠ c0 := hxs x (List.mem_cons_self x xs2)
    obtain ⟨p0, pt, rfl⟩ : ∃ a l, pat = a :: l := by
      cases pat with
      | nil => cases hp
      | cons a l => exact ⟨a, l, rfl⟩
    have hc0 : p0 = c0 := by simpa using hp
    subst hc0
    have hns : strStarts (p0 :: pt) (x :: (xs2 ++ ys)) = false :=
      strStarts_cons_ne pt (xs2 ++ ys) hx
    simp only [List.cons_append, strIndexOf, List.append_eq, hns, Bool.false_eq_true,
      if_false]
    rw [ih ys (fun c hc => hxs c (List.mem_cons_of_mem x hc)) hys]
    simp

/-- The occurrence search finds a position where the prefix test passes, and
the earliest such position. -/
theorem strIndexOf_some {pat s : Str} :
    ∀ {i : Nat}, strIndexOf pat s = some i →
    strStarts pat (s.drop i) = true ∧ ∀ j < i, strStarts pat (s.drop j) = false := by
  induction s with
  | nil =>
    intro i h
    simp only [strIndexOf] at h
    split at h
    · rename_i hs
      cases h
      exact ⟨hs, fun j hj => absurd hj (by omega)⟩
    · cases h
  | cons c rest ih =>
    intro i h
    simp only [strIndexOf] at h
    split at h
    · rename_i hs
      cases h
      exact ⟨by simpa using hs, fun j hj => absurd hj (by omega)⟩
    · rename_i hns
      rw [Option.map_eq_some'] at h
      obtain ⟨j0, hj0, hji⟩ := h
      obtain ⟨hA, hB⟩ := ih hj0
      subst hji
      refine ⟨by simpa [List.drop_succ_cons] using hA, ?_⟩
      intro j hj
      cases j with
      | zero =>
        simpa using Bool.not_eq_true _ ▸ (Bool.eq_false_iff.mpr hns)
      | succ j2 =>
        have := hB j2 (by omega)
        simpa [List.drop_succ_cons] using this

/-- Trimming leaves a whitespace-free string unchanged. -/
theorem trimStr_of_no_ws {s : Str} (h : ∀ c ∈ s, isWs c = false) : trimStr s = s := by
  have hdrop : ∀ (l : Str), (∀ c ∈ l, isWs c = false) → l.dropWhile isWs = l := by
    intro l hl
    cases l with
    | nil => rfl
    | cons c rest => simp [List.dropWhile, hl c (List.mem_cons_self c rest)]
  unfold trimStr
  rw [hdrop s h, hdrop s.reverse (fun c hc => h c (List.mem_reverse.mp hc)),
    List.reverse_reverse]

/-- The section matcher never fires at a character other than `<`. -/
theorem matchSectionAt_of_head_ne {c : Char} (rest : Str) (h : c ≠ '<') :
    matchSectionAt (c :: rest) = none := by
  cases rest with
  | nil => rfl
  | cons c2 r => simp [matchSectionAt, h]

/-- The tool-token matcher never fires at a character other than `<`. -/
theorem matchToolAt_of_head_ne {c : Char} (rest : Str) (h : c ≠ '<') :
    matchToolAt (c :: rest) = none := by
  have hb : ('<' == c) = false := beq_eq_false_iff_ne.mpr (Ne.symm h)
  have h1 : strStarts ARG_BEGIN_TOK (c :: rest) =
      (('<' == c) && strStarts "|tool_call_argument_begin|>".data rest) := rfl
  have h2 : strStarts "<|tool_call_argument_end|>".data (c :: rest) =
      (('<' == c) && strStarts "|tool_call_argument_end|>".data rest) := rfl
  have h3 : strStarts BEGIN_TOK (c :: rest) =
      (('<' == c) && strStarts "|tool_call_begin|>".data rest) := rfl
  have h4 : strStarts END_TOK (c :: rest) =
      (('<' == c) && strStarts "|tool_call_end|>".data rest) := rfl
  simp [matchToolAt, h1, h2, h3, h4, hb]

/-- A removal pass leaves `<`-free text unchanged, for matchers that only
fire at `<`. -/
theorem removeMatchesFuel_no_lt (m : Str → Option Nat)
    (hm : ∀ (c : Char) (rest : Str), c ≠ '<' → m (c :: rest) = none) :
    ∀ (fuel : Nat) (s : Str), (∀ c ∈ s, c ≠ '<') → removeMatchesFuel m fuel s = s := by
  intro fuel
  induction fuel with
  | zero => intro s _; rfl
  | succ f ih =>
    intro s hs
    cases s with
    | nil => rfl
    | cons c rest =>
      have hc : c ≠ '<' := hs c (List.mem_cons_self c rest)
      simp only [removeMatchesFuel, hm c rest hc]
      rw [ih rest (fun x hx => hs x (List.mem_cons_of_mem c hx))]

/-- A removal pass walks over a `<`-free prefix unchanged, spending fuel. -/
theorem removeMatchesFuel_append_no_lt (m : Str → Option Nat)
    (hm : ∀ (c : Char) (rest : Str), c ≠ '<' → m (c :: rest) = none) :
    ∀ (pre : Str) (fuel : Nat) (s : Str), (∀ c ∈ pre, c ≠ '<') →
      removeMatchesFuel m fuel (pre ++ s) =
        pre ++ removeMatchesFuel m (fuel - pre.length) s := by
  intro pre
  induction pre with
  | nil => intro fuel s _; simp
  | cons c pre2 ih =>
    intro fuel s hp
    have hc : c ≠ '<' := hp c (List.mem_cons_self c pre2)
    cases fuel with
    | zero => simp [removeMatchesFuel]
    | succ f =>
      simp only [List.cons_append, removeMatchesFuel, hm c (pre2 ++ s) hc]
      rw [ih f s (fun x hx => hp x (List.mem_cons_of_mem c hx))]
      simp [Nat.succ_sub_succ]

/-- A removal pass on `<`-free text flanking one matched token deletes
exactly that token. -/
theorem removeMatches_single_tok (m : Str → Option Nat)
    (hm : ∀ (c : Char) (rest : Str), c ≠ '<' → m (c :: rest) = none)
    (pre tok post : Str) (hpre : ∀ c ∈ pre, c ≠ '<') (hpost : ∀ c ∈ post, c ≠ '<')
    (hne : tok ≠ []) (htok : m (tok ++ post) = some tok.length) :
    removeMatches m (pre ++ (tok ++ post)) = pre ++ post := by
  obtain ⟨t0, ttail, rfl⟩ : ∃ a l, tok = a :: l := by
    cases tok with
    | nil => exact absurd rfl hne
    | cons a l => exact ⟨a, l, rfl⟩
  unfold removeMatches
  rw [removeMatchesFuel_append_no_lt m hm pre _ _ hpre]
  congr 1
  have hfuel : (pre ++ ((t0 :: ttail) ++ post)).length - pre.length
      = (ttail.length + post.length) + 1 := by
    simp only [List.length_append, List.length_cons]
    omega
  rw [hfuel]
  rw [List.cons_append] at htok
  have hlen : (t0 :: ttail).length = Nat.succ ttail.length := rfl
  rw [hlen] at htok
  simp only [List.cons_append, removeMatchesFuel, htok]
  have hdrop : (t0 :: (ttail ++ post)).drop (ttail.length + 1) = post := by
    rw [← List.cons_append]
    exact List.drop_left' (by simp)
  rw [hdrop]
  exact removeMatchesFuel_no_lt m hm _ post hpost

/-- A removal pass on `<`-free text flanking one unmatched token leaves the
input unchanged. -/
theorem removeMatches_skip_tok (m : Str → Option Nat)
    (hm : ∀ (c : Char) (rest : Str), c ≠ '<' → m (c :: rest) = none)
    (pre tok post : Str) (hpre : ∀ c ∈ pre, c ≠ '<') (hpost : ∀ c ∈ post, c ≠ '<')
    (hne : tok ≠ []) (htail : ∀ c ∈ tok.tail, c ≠ '<')
    (htok : m (tok ++ post) = none) :
    removeMatches m (pre ++ (tok ++ post)) = pre ++ (tok ++ post) := by
  obtain ⟨t0, ttail, rfl⟩ : ∃ a l, tok = a :: l := by
    cases tok with
    | nil => exact absurd rfl hne
    | cons a l => exact ⟨a, l, rfl⟩
  have htail2 : ∀ c ∈ ttail, c ≠ '<' := by simpa using htail
  unfold removeMatches
  rw [removeMatchesFuel_append_no_lt m hm pre _ _ hpre]
  congr 1
  have hfuel : (pre ++ ((t0 :: ttail) ++ post)).length - pre.length
      = (ttail.length + post.length) + 1 := by
    simp only [List.length_append, List.length_cons]
    omega
  rw [hfuel]
  rw [List.cons_append] at htok
  simp only [List.cons_append, removeMatchesFuel, htok]
  rw [removeMatchesFuel_append_no_lt m hm ttail _ _ htail2]
  have hq : ttail.length + post.length - ttail.length = post.length := by omega
  rw [hq, removeMatchesFuel_no_lt m hm _ post hpost]

/-- The section matcher does not fire at a tool token. -/
theorem matchSectionAt_skip_BEGIN (post : Str) :
    matchSectionAt (BEGIN_TOK ++ post) = none := rfl

/-- The section matcher does not fire at the argument-begin token. -/
theorem matchSectionAt_skip_ARG_BEGIN (post : Str) :
    matchSectionAt (ARG_BEGIN_TOK ++ post) = none := rfl

/-- The section matcher does not fire at the end token. -/
theorem matchSectionAt_skip_END (post : Str) :
    matchSectionAt (END_TOK ++ post) = none := rfl

/-- The section matcher consumes exactly a leading section-begin token. -/
theorem matchSectionAt_at_sectionBegin (post : Str) :
    matchSectionAt (sectionBeginTok ++ post) = some sectionBeginTok.length := rfl

/-- The section matcher consumes exactly a leading section-end token. -/
theorem matchSectionAt_at_sectionEnd (post : Str) :
    matchSectionAt (sectionEndTok ++ post) = some sectionEndTok.length := rfl

/-- The tool matcher consumes exactly a leading begin token. -/
theorem matchToolAt_at_BEGIN (post : Str) :
    matchToolAt (BEGIN_TOK ++ post) = some BEGIN_TOK.length := rfl

/-- The tool matcher consumes exactly a leading argument-begin token. -/
theorem matchToolAt_at_ARG_BEGIN (post : Str) :
    matchToolAt (ARG_BEGIN_TOK ++ post) = some ARG_BEGIN_TOK.length := rfl

/-- The tool matcher consumes exactly a leading end token. -/
theorem matchToolAt_at_END (post : Str) :
    matchToolAt (END_TOK ++ post) = some END_TOK.length := rfl

/-- C5 amended: token stripping is a single left-to-right removal pass per
visible segment — a control token (tool-call sentinel or section delimiter)
appearing intact in one segment, flanked by `<`-free text, never reaches the
Text output: `stripControlTokens` removes exactly it.  The removal pass does
not rescan, however, so fragments flanking a removed token or a consumed
inline call can splice into a complete token in the delivered Text (see the
counterexample). -/
theorem c5_token_stripping_amended (pre tok post : Str) (htok : tok ∈ c5TokenList)
    (hpre : ∀ c ∈ pre, c ≠ '<') (hpost : ∀ c ∈ post, c ≠ '<') :
    stripControlTokens (pre ++ (tok ++ post)) = pre ++ post := by
  have hmS : ∀ (c : Char) (rest : Str), c ≠ '<' → matchSectionAt (c :: rest) = none :=
    fun c rest h => matchSectionAt_of_head_ne rest h
  have hmT : ∀ (c : Char) (rest : Str), c ≠ '<' → matchToolAt (c :: rest) = none :=
    fun c rest h => matchToolAt_of_head_ne rest h
  have hno_pp : ∀ c ∈ pre ++ post, c ≠ '<' := by
    intro c hc
    rcases List.mem_append.mp hc with h | h
    · exact hpre c h
    · exact hpost c h
  have hstrip : ∀ s : Str, stripControlTokens s =
      removeMatches matchToolAt (removeMatches matchSectionAt s) := fun _ => rfl
  simp only [c5TokenList, List.mem_cons, List.not_mem_nil, or_false] at htok
  rcases htok with rfl | rfl | rfl | rfl | rfl
  · rw [hstrip,
      removeMatches_skip_tok matchSectionAt hmS pre BEGIN_TOK post hpre hpost
        (by decide) (by decide) (matchSectionAt_skip_BEGIN post),
      removeMatches_single_tok matchToolAt hmT pre BEGIN_TOK post hpre hpost
        (by decide) (matchToolAt_at_BEGIN post)]
  · rw [hstrip,
      removeMatches_skip_tok matchSectionAt hmS pre ARG_BEGIN_TOK post hpre hpost
        (by decide) (by decide) (matchSectionAt_skip_ARG_BEGIN post),
      removeMatches_single_tok matchToolAt hmT pre ARG_BEGIN_TOK post hpre hpost
        (by decide) (matchToolAt_at_ARG_BEGIN post)]
  · rw [hstrip,
      removeMatches_skip_tok matchSectionAt hmS pre END_TOK post hpre hpost
        (by decide) (by decide) (matchSectionAt_skip_END post),
      removeMatches_single_tok matchToolAt hmT pre END_TOK post hpre hpost
        (by decide) (matchToolAt_at_END post)]
  · rw [hstrip,
      removeMatches_single_tok matchSectionAt hmS pre sectionBeginTok post hpre hpost
        (by decide) (matchSectionAt_at_sectionBegin post)]
    unfold removeMatches
    exact removeMatchesFuel_no_lt matchToolAt hmT _ _ hno_pp
  · rw [hstrip,
      removeMatches_single_tok matchSectionAt hmS pre sectionEndTok post hpre hpost
        (by decide) (matchSectionAt_at_sectionEnd post)]
    unfold removeMatches
    exact removeMatchesFuel_no_lt matchToolAt hmT _ _ hno_pp

/-- C5 witness: stripping removes an intact end token flanked by plain
text. -/
theorem c5_witness :
    END_TOK ∈ c5TokenList ∧
    (∀ c ∈ "ab".data, c ≠ '<') ∧ (∀ c ∈ "cd".data, c ≠ '<') ∧
    stripControlTokens ("ab".data ++ (END_TOK ++ "cd".data)) = "ab".data ++ "cd".data :=
  ⟨by decide, by decide, by decide,
   c5_token_stripping_amended "ab".data END_TOK "cd".data (by decide) (by decide)
     (by decide)⟩

/-- C6: Scenario B — two structured fragments for index 0 (`search`, then the
rest of the arguments) followed by the tool-calls terminal marker emit
exactly one `ToolCall("search", \x7bq:"x"\x7d)` with no fatal error and no
duplicate on flush, and a further fragment for the completed index 0 is
ignored (no event, no state change). -/
theorem c6_structured_two_fragment_assembly :
    (runDeltas initialSessionState [scenB1, scenB2, scenB3]).2 =
      ([.toolCall none "search".data qxObj], false) ∧
    processDelta (runDeltas initialSessionState [scenB1, scenB2, scenB3]).1 scenB4 =
      ((runDeltas initialSessionState [scenB1, scenB2, scenB3]).1, [], false) := by
  decide

/-- C7: Scenario C — the inline call delivered as the two chunks
`"<|tool_call_begin|>foo<|tool_call_argument_begin|>\x7b\"x\":"` and
`"1\x7d<|tool_call_end|> done"` yields exactly
`[ToolCall(_, "foo", \x7bx:1\x7d), Text(" done")]`, in that order. -/
theorem c7_inline_call_split_across_two_chunks :
    (runTextChunks initialSessionState [c7Chunk1, c7Chunk2]).2 =
      [.toolCall none "foo".data xObj, .text " done".data] := by
  decide

/-- C8: Scenario D — for every inline call whose header is a nonempty
plain-name-character token and whose argument text (containing no end-marker
occurrence before its end) fails to parse as a JSON object, the full call
`begin ++ name ++ argument-begin ++ args ++ end` produces NO events (in
particular no ToolCall), leaves the session state exactly at its initial
value (active inline call cleared, registries and carryover empty), and the
enclosing `processDelta` neither raises the decode error nor reports
anything: only the output-token counter advances, so subsequent input is
processed exactly as from a fresh state. -/
theorem c8_malformed_inline_call_non_fatal (nm arg : Str)
    (hnm : nm ≠ []) (hchars : ∀ c ∈ nm, isNameChar c = true)
    (hend : strIndexOf END_TOK (arg ++ END_TOK) = some arg.length)
    (hparse : tryParseJSONObject arg = none) :
    processTextContent initialSessionState
        (BEGIN_TOK ++ (nm ++ (ARG_BEGIN_TOK ++ (arg ++ END_TOK)))) =
      (initialSessionState, [], false, false) ∧
    processDelta initialSessionState
        ⟨none, some (BEGIN_TOK ++ (nm ++ (ARG_BEGIN_TOK ++ (arg ++ END_TOK)))), none, none⟩ =
      ({ initialSessionState with
          outputTokenCount :=
            ceilDiv4 (BEGIN_TOK ++ (nm ++ (ARG_BEGIN_TOK ++ (arg ++ END_TOK)))).length },
        [], false) := by
  have hlt_nm : ∀ c ∈ nm, c ≠ '<' := by
    intro c hc heq
    subst heq
    exact absurd (hchars '<' hc) (by decide)
  have hAB_head : ARG_BEGIN_TOK.head? = some '<' := rfl
  have hb : strIndexOf BEGIN_TOK (BEGIN_TOK ++ (nm ++ (ARG_BEGIN_TOK ++ (arg ++ END_TOK))))
      = some 0 := strIndexOf_of_starts (strStarts_self_append _ _)
  have hd1 : (BEGIN_TOK ++ (nm ++ (ARG_BEGIN_TOK ++ (arg ++ END_TOK)))).drop
      (0 + BEGIN_TOK.length) = nm ++ (ARG_BEGIN_TOK ++ (arg ++ END_TOK)) := by
    rw [Nat.zero_add, List.drop_left]
  have ha : strIndexOf ARG_BEGIN_TOK (nm ++ (ARG_BEGIN_TOK ++ (arg ++ END_TOK)))
      = some nm.length :=
    strIndexOf_append '<' hAB_head nm _ hlt_nm (strStarts_self_append _ _)
  have hENDnotAB : ∀ z : Str, strStarts END_TOK (ARG_BEGIN_TOK ++ z) = false := fun z => rfl
  have hET : END_TOK = '<' :: "|tool_call_end|>".data := rfl
  have he_cases : ∀ ei, strIndexOf END_TOK (nm ++ (ARG_BEGIN_TOK ++ (arg ++ END_TOK)))
      = some ei → nm.length < ei := by
    intro ei hei
    obtain ⟨hA, hB⟩ := strIndexOf_some hei
    by_contra hle
    push_neg at hle
    rcases Nat.lt_or_ge ei nm.length with hlt | hge
    · rw [List.drop_append_of_le_length (by omega)] at hA
      rw [List.drop_eq_getElem_cons hlt] at hA
      have hch : nm[ei] ≠ '<' := hlt_nm _ (List.getElem_mem hlt)
      rw [hET, List.cons_append, strStarts_cons_ne _ _ hch] at hA
      cases hA
    · have hEq : ei = nm.length := by omega
      subst hEq
      rw [List.drop_left, hENDnotAB] at hA
      cases hA
  have hd2 : (nm ++ (ARG_BEGIN_TOK ++ (arg ++ END_TOK))).drop
      (nm.length + ARG_BEGIN_TOK.length) = arg ++ END_TOK := by
    rw [List.drop_append, List.drop_left]
  have hws : ∀ c ∈ nm, isWs c = false := by
    intro c hc
    have h := hchars c hc
    by_contra hw
    have hw2 : isWs c = true := by
      cases hisw : isWs c
      · exact absurd hisw hw
      · rfl
    simp only [isWs, Bool.or_eq_true, decide_eq_true_eq] at hw2
    rcases hw2 with ((rfl | rfl) | rfl) | rfl <;> exact absurd h (by decide)
  have hheader : trimStr ((nm ++ (ARG_BEGIN_TOK ++ (arg ++ END_TOK))).take nm.length) = nm := by
    rw [List.take_left]
    exact trimStr_of_no_ws hws
  have hmatchHeader : matchHeader nm = (some nm, none) := by
    unfold matchHeader
    rw [List.takeWhile_eq_self_iff.mpr hchars]
    rw [if_neg hnm, List.drop_length]
  have hargs : (arg ++ END_TOK).take arg.length = arg := List.take_left arg END_TOK
  have hd3 : (arg ++ END_TOK).drop (arg.length + END_TOK.length) = [] := by
    rw [List.drop_append, List.drop_length]
  have hemit : emitTextToolCallIfValid [] [] (some nm) none arg = ⟨[], [], none⟩ := by
    simp [emitTextToolCallIfValid, hparse]
  have hTlen : 2 ≤ (BEGIN_TOK ++ (nm ++ (ARG_BEGIN_TOK ++ (arg ++ END_TOK)))).length := by
    have h19 : BEGIN_TOK.length = 19 := by decide
    simp only [List.length_append]
    omega
  have hTne : (BEGIN_TOK ++ (nm ++ (ARG_BEGIN_TOK ++ (arg ++ END_TOK)))) ≠ [] := by
    intro h
    have := congrArg List.length h
    simp only [List.length_nil] at this
    omega
  have hAEne : (arg ++ END_TOK) ≠ [] := by
    intro h
    have := congrArg List.length h
    have h17 : END_TOK.length = 17 := by decide
    simp only [List.length_append, List.length_nil] at this
    omega
  have htrim : trimStr nm = nm := trimStr_of_no_ws hws
  have hrest : ∀ fuel, 2 ≤ fuel → inlineLoop fuel
      (⟨arg ++ END_TOK, some ⟨some nm, none, [], false⟩, [], [], [], [], [], false⟩ : LoopSt) =
      (⟨[], none, [], [], [], [], [], false⟩ : LoopSt) := by
    intro fuel hfuel
    obtain ⟨f1, rfl⟩ : ∃ f1, fuel = f1 + 1 := ⟨fuel - 1, by omega⟩
    rw [inlineLoop, if_neg hAEne]
    simp only [hend, List.nil_append, hargs, hemit, hd3]
    rw [if_neg (by decide)]
    obtain ⟨f2, rfl⟩ : ∃ f2, f1 = f2 + 1 := ⟨f1 - 1, by omega⟩
    rw [inlineLoop, if_pos rfl]
  have hTlen2 : 2 ≤ List.length BEGIN_TOK +
      (List.length nm + (List.length ARG_BEGIN_TOK + (List.length arg + List.length END_TOK))) := by
    have h19 : List.length BEGIN_TOK = 19 := by decide
    omega
  have hloop : inlineLoop
      ((BEGIN_TOK ++ (nm ++ (ARG_BEGIN_TOK ++ (arg ++ END_TOK)))).length + 1)
      ⟨BEGIN_TOK ++ (nm ++ (ARG_BEGIN_TOK ++ (arg ++ END_TOK))), none, [], [], [], [], [], false⟩
      = ⟨[], none, [], [], [], [], [], false⟩ := by
    rw [inlineLoop]
    rw [if_neg hTne]
    simp only [hb, hd1, ha]
    cases hE : strIndexOf END_TOK (nm ++ (ARG_BEGIN_TOK ++ (arg ++ END_TOK))) with
    | none =>
      simp [hE, htrim, hmatchHeader, hd2]
      exact hrest _ hTlen2
    | some ei =>
      have hlt := he_cases ei hE
      simp [hE, hlt, htrim, hmatchHeader, hd2]
      exact hrest _ hTlen2
  have h1 : processTextContent initialSessionState
      (BEGIN_TOK ++ (nm ++ (ARG_BEGIN_TOK ++ (arg ++ END_TOK)))) =
      (initialSessionState, [], false, false) := by
    simp only [processTextContent, initialSessionState, List.nil_append]
    simp only [hloop]
    simp
  refine ⟨h1, ?_⟩
  simp only [processDelta, processDeltaAccum, hTne, h1]
  simp [initialSessionState]

/-- C8 witness: Scenario D's concrete malformed call
`"<|tool_call_begin|>bar<|tool_call_argument_begin|>not-json<|tool_call_end|>"`
satisfies the hypotheses and yields no events and the untouched initial
state. -/
theorem c8_witness :
    ("bar".data ≠ [] ∧ (∀ c ∈ "bar".data, isNameChar c = true) ∧
      strIndexOf END_TOK ("not-json".data ++ END_TOK) = some "not-json".data.length ∧
      tryParseJSONObject "not-json".data = none) ∧
    processTextContent initialSessionState
        (BEGIN_TOK ++ ("bar".data ++ (ARG_BEGIN_TOK ++ ("not-json".data ++ END_TOK)))) =
      (initialSessionState, [], false, false) :=
  ⟨⟨by decide, by decide, by decide, by decide⟩,
   (c8_malformed_inline_call_non_fatal "bar".data "not-json".data (by decide) (by decide)
     (by decide) (by decide)).1⟩

/-- C1 counterexample: the same logical call (name `f`, arguments
`\x7b\x7d`) delivered first through the inline sentinel channel and then
through the structured channel produces two `ToolCall` events, not exactly
one — the structured emit path inserts the dedup key but never consults
it. -/
theorem c1_counterexample :
    (runDeltas initialSessionState [c1InlineDelta, c1StructDelta]).2.1 =
      [.toolCall none "f".data emptyObj, .toolCall none "f".data emptyObj] := by
  decide

/-- C2 counterexample: at the normal-stop terminal marker (`finish_reason =
"stop"`) with a pending structured call whose argument text `\x7b` does not
parse, `processDelta` raises the fatal decode error — the claim's
raises-only-on-tool-calls-marker direction fails. -/
theorem c2_counterexample :
    (processDelta initialSessionState c2StopDelta).2.2 = true ∧
    c2StopDelta.finishReason = some "stop".data := by
  decide

/-- C3 counterexample: splitting Scenario C's text at byte offset 7 — inside
the begin sentinel marker — yields a different final event sequence than
one-chunk delivery (the partial marker is flushed as visible text because the
carryover buffer is overwritten with the empty loop remainder). -/
theorem c3_counterexample :
    (runTextChunks initialSessionState [c3Text.take 7, c3Text.drop 7]).2 ≠
      (runTextChunks initialSessionState [c3Text]).2 := by
  decide

/-- C4 counterexample: after a fragment consisting of the begin marker plus a
30-byte header with no delimiter, the pending text (49 bytes, longer than the
longest sentinel marker minus one) is neither flushed as visible text (no
event at all is emitted) nor retained (the carryover ends empty) — it is
silently dropped. -/
theorem c4_counterexample :
    ARG_BEGIN_TOK.length - 1 < c4Input.length ∧
    (processTextContent initialSessionState c4Input).2.1 = [] ∧
    (processTextContent initialSessionState c4Input).1.textToolParserBuffer = [] := by
  decide

/-- C5 counterexample: a single chunk in which the two halves of the section
token `<|a_section_begin|>` flank the section token `<|b_section_begin|>`
produces a Text event that consists exactly of the full section token — the
single-pass removal splices the flanking halves together. -/
theorem c5_counterexample :
    (processTextContent initialSessionState c5Input).2.1 =
      [.text "<|a_section_begin|>".data] ∧
    matchSectionAt "<|a_section_begin|>".data = some 19 := by
  decide

/-- C3 amended: for Scenario C's inline call, splitting the text at any byte
offset inside the argument-text region — from immediately after the
argument-begin marker (offset 50) through immediately before the end marker
(offset 57) — across two chunks produces the same final event sequence as
one-chunk delivery.  (Splits inside the sentinel markers themselves do not
preserve the event sequence, because the carryover buffer is overwritten with
the loop's empty remainder at the end of each fragment; see the
counterexample.) -/
theorem c3_split_invariance_in_argument_region (k : Nat) (h1 : 50 ≤ k) (h2 : k ≤ 57) :
    (runTextChunks initialSessionState [c3Text.take k, c3Text.drop k]).2 =
      (runTextChunks initialSessionState [c3Text]).2 := by
  interval_cases k <;> decide

/-- C3 witness: the amended invariance at split offset 53. -/
theorem c3_witness :
    50 ≤ 53 ∧ 53 ≤ 57 ∧
    (runTextChunks initialSessionState [c3Text.take 53, c3Text.drop 53]).2 =
      (runTextChunks initialSessionState [c3Text]).2 :=
  ⟨by omega, by omega,
   c3_split_invariance_in_argument_region 53 (by omega) (by omega)⟩

/-- C4 amended: after processing any text fragment from any session state,
the inline parser's carryover buffer is empty — trivially within the claimed
bound — because the in-loop carryover assignments are dead stores: the
assignment after the loop overwrites the buffer with the loop's final `data`,
which is empty on every exit path.  Over-long pending text is therefore
dropped, not flushed as visible text (see the counterexample). -/
theorem c4_carryover_always_empty (st : SessionState) (input : Str) :
    (processTextContent st input).1.textToolParserBuffer = [] := by
  simp only [processTextContent]
  exact inlineLoop_data_nil _ _ (by simp)

/-- C9 counterexample: after a streaming response whose single chunk carries
an inline call with a declared index, the `(name, index)` dedup registry and
the output-size counter are not reset by the read loop's `finally` block —
they survive into the returned state. -/
theorem c9_counterexample :
    (processStreamingResponse initialSessionState [c9Chunk]).1.emittedTextToolCallIds ≠ [] ∧
    (processStreamingResponse initialSessionState [c9Chunk]).1.outputTokenCount ≠ 0 := by
  decide

/-- C9 amended: when the streaming read loop finishes, its `finally` block
resets the structured tool-call buffers, the completed-index set, the two
emitted-text flags, the inline parser carryover and active call, and the
`(name, canonical)` dedup registry — but not the `(name, index)` inline dedup
registry and not the output-size counter (see the counterexample); those two
are reset at the start of the next request by
`provideLanguageModelChatResponse`, whose reset restores the full initial
state. -/
theorem c9_post_stream_state_reset :
    (∀ (st : SessionState) (chunks : List Str),
      (processStreamingResponse st chunks).1.toolCallBuffers = [] ∧
      (processStreamingResponse st chunks).1.completedToolCallIndices = [] ∧
      (processStreamingResponse st chunks).1.hasEmittedAssistantText = false ∧
      (processStreamingResponse st chunks).1.emittedBeginToolCallsHint = false ∧
      (processStreamingResponse st chunks).1.textToolParserBuffer = [] ∧
      (processStreamingResponse st chunks).1.textToolActive = none ∧
      (processStreamingResponse st chunks).1.emittedTextToolCallKeys = []) ∧
    (∀ st : SessionState, resetSessionState st = initialSessionState) := by
  constructor
  · intro st chunks
    simp [processStreamingResponse, finallyReset]
  · intro st
    rfl

/-- C1 amended: dedup is one-sided.  The inline channel respects the
registries: a call whose `(name, canonicalArguments)` key (or, with a
declared index, whose `(name, index)` key) is already registered is not
emitted again.  Every emission site — inline, per-fragment structured, and
terminal flush — inserts the `(name, canonicalArguments)` key into the
registry no later than the event is handed over (the key is in the resulting
registry whenever an event is produced).  The structured channel, however,
never consults the registry before emitting, so a call observed on the inline
channel and then on the structured channel is emitted twice (see the
counterexample); exactly-once holds only when the duplicate observation
arrives via the inline channel. -/
theorem c1_dedup_registry_amended :
    (∀ (keys ids : List Str) (nm : Option Str) (arg : Str) (v : JsonVal),
      tryParseJSONObject arg = some v →
      (nm.getD "unknown_tool".data ++ ':' :: serializeJson v) ∈ keys →
      emitTextToolCallIfValid keys ids nm none arg = ⟨keys, ids, none⟩) ∧
    (∀ (keys ids : List Str) (nm : Option Str) (i : Nat) (arg : Str) (v : JsonVal),
      tryParseJSONObject arg = some v →
      (nm.getD "unknown_tool".data ++ ':' :: natToStr i) ∈ ids →
      emitTextToolCallIfValid keys ids nm (some i) arg = ⟨keys, ids, none⟩) ∧
    (∀ (keys ids : List Str) (nm : Option Str) (idx : Option Nat) (arg : Str)
       (id2 : Option Str) (name2 : Str) (v2 : JsonVal),
      (emitTextToolCallIfValid keys ids nm idx arg).event = some (.toolCall id2 name2 v2) →
      (name2 ++ ':' :: serializeJson v2) ∈ (emitTextToolCallIfValid keys ids nm idx arg).keys) ∧
    (∀ (st : SessionState) (index : Nat) (id2 : Option Str) (name2 : Str) (v2 : JsonVal),
      (EmittedEvent.toolCall id2 name2 v2) ∈ (tryEmitBufferedToolCall st index).2 →
      (name2 ++ ':' :: serializeJson v2) ∈
        (tryEmitBufferedToolCall st index).1.emittedTextToolCallKeys) ∧
    (∀ (st : SessionState) (b : Bool) (id2 : Option Str) (name2 : Str) (v2 : JsonVal),
      (EmittedEvent.toolCall id2 name2 v2) ∈ (flushToolCallBuffers st b).2.1 →
      (name2 ++ ':' :: serializeJson v2) ∈
        (flushToolCallBuffers st b).1.emittedTextToolCallKeys) := by
  refine ⟨?_, ?_, ?_, ?_, ?_⟩
  · intro keys ids nm arg v hp hk
    simp [emitTextToolCallIfValid, hp, hk]
  · intro keys ids nm i arg v hp hk
    simp [emitTextToolCallIfValid, hp, hk]
  · intro keys ids nm idx arg id2 name2 v2 h
    cases hp : tryParseJSONObject arg with
    | none => simp [emitTextToolCallIfValid, hp] at h
    | some v =>
      cases idx with
      | none =>
        simp only [emitTextToolCallIfValid, hp] at h ⊢
        by_cases hk : (nm.getD "unknown_tool".data ++ ':' :: serializeJson v) ∈ keys
        · simp [hk] at h
        · simp only [hk, if_false, if_neg hk] at h ⊢
          simp only [Option.some.injEq, EmittedEvent.toolCall.injEq] at h
          obtain ⟨h1, h2, h3⟩ := h
          subst h2
          subst h3
          exact mem_addToSet_self _ _
      | some i =>
        simp only [emitTextToolCallIfValid, hp] at h ⊢
        by_cases hk : (nm.getD "unknown_tool".data ++ ':' :: natToStr i) ∈ ids
        · simp [hk] at h
        · simp only [hk, if_false, if_neg hk] at h ⊢
          simp only [Option.some.injEq, EmittedEvent.toolCall.injEq] at h
          obtain ⟨h1, h2, h3⟩ := h
          subst h2
          subst h3
          exact mem_addToSet_self _ _
  · intro st index id2 name2 v2 h
    cases hg : mapGet st.toolCallBuffers index with
    | none => simp [tryEmitBufferedToolCall, hg] at h
    | some buf =>
      cases hn : buf.name with
      | none => simp [tryEmitBufferedToolCall, hg, hn] at h
      | some nm =>
        by_cases hne : nm = []
        · simp [tryEmitBufferedToolCall, hg, hn, hne] at h
        · cases hp : tryParseJSONObject buf.args with
          | none => simp [tryEmitBufferedToolCall, hg, hn, hne, hp] at h
          | some v =>
            simp only [tryEmitBufferedToolCall, hg, hn, hne, hp, if_neg hne, if_false] at h ⊢
            simp only [List.mem_singleton, EmittedEvent.toolCall.injEq] at h
            obtain ⟨h1, h2, h3⟩ := h
            subst h2
            subst h3
            exact mem_addToSet_self _ _
  · intro st b id2 name2 v2 h
    by_cases hbuf : st.toolCallBuffers = []
    · simp [flushToolCallBuffers, hbuf] at h
    · simp only [flushToolCallBuffers, hbuf, if_neg hbuf] at h ⊢
      exact flushAux_event_key _ _ _ _ _ _ h

/-- C1 witness: the inline-channel idempotence applied at a registry that
already holds the key of call `f` with empty-object arguments. -/
theorem c1_witness :
    tryParseJSONObject "\x7b\x7d".data = some emptyObj ∧
    ((some "f".data).getD "unknown_tool".data ++ ':' :: serializeJson emptyObj) ∈
      ["f".data ++ ':' :: serializeJson emptyObj] ∧
    emitTextToolCallIfValid ["f".data ++ ':' :: serializeJson emptyObj] []
        (some "f".data) none "\x7b\x7d".data =
      ⟨["f".data ++ ':' :: serializeJson emptyObj], [], none⟩ :=
  ⟨by decide, by decide,
   c1_dedup_registry_amended.1 ["f".data ++ ':' :: serializeJson emptyObj] []
     (some "f".data) "\x7b\x7d".data emptyObj (by decide) (by decide)⟩

/-- C2 amended: `processDelta` raises the fatal decode error exactly when the
terminal marker is `"tool_calls"` or `"stop"` (both, not only the tool-calls
marker) and some pending structured call's accumulated argument text does not
parse as a JSON object; the `[DONE]` end-of-stream flush is opportunistic and
never raises; and the streaming read loop's `try/catch` swallows the error,
delivering the state and events produced before the throw. -/
theorem c2_terminal_error_policy_amended :
    (∀ (st : SessionState) (d : StreamDelta),
      (processDelta st d).2.2 = true ↔
        ((d.finishReason = some "tool_calls".data ∨ d.finishReason = some "stop".data) ∧
         ∃ p ∈ (processDeltaAccum st d).1.toolCallBuffers,
           tryParseJSONObject p.2.args = none)) ∧
    (∀ st : SessionState, (flushToolCallBuffers st false).2.2 = false) ∧
    (∀ (st : SessionState) (dat : Str),
      processSSELine st ("data: ".data ++ dat) =
        if dat = "[DONE]".data then
          ((flushActiveTextToolCall (flushToolCallBuffers st false).1).1,
           (flushToolCallBuffers st false).2.1 ++
             (flushActiveTextToolCall (flushToolCallBuffers st false).1).2)
        else
          match parseJsonText dat with
          | none => (st, [])
          | some v => ((processDeltaJson st v).1, (processDeltaJson st v).2.1)) := by
  refine ⟨?_, ?_, ?_⟩
  · intro st d
    cases hfr : d.finishReason with
    | none => simp [processDelta, hfr]
    | some fr =>
      by_cases hc : fr = "tool_calls".data ∨ fr = "stop".data
      · have hb : (decide (fr = "tool_calls".data) || decide (fr = "stop".data)) = true := by
          rcases hc with h | h <;> simp [h]
        simp only [processDelta, hfr, hb, if_true]
        by_cases hbuf : (processDeltaAccum st d).1.toolCallBuffers = []
        · simp [flushToolCallBuffers, hbuf, hc]
        · simp only [flushToolCallBuffers, hbuf, if_neg hbuf, if_false]
          rw [flushAux_err_iff]
          simp [hc]
      · have hb : (decide (fr = "tool_calls".data) || decide (fr = "stop".data)) = false := by
          push_neg at hc
          simp [hc.1, hc.2]
        simp only [processDelta, hfr, hb]
        simp only [Bool.false_eq_true, if_false]
        constructor
        · intro h
          simp at h
        · rintro ⟨h1, -⟩
          exfalso
          apply hc
          rcases h1 with h | h
          · exact Or.inl (Option.some.inj h)
          · exact Or.inr (Option.some.inj h)
  · intro st
    by_cases hbuf : st.toolCallBuffers = []
    · simp [flushToolCallBuffers, hbuf]
    · simp only [flushToolCallBuffers, hbuf, if_neg hbuf]
      exact flushAux_nothrow _ _
  · intro st dat
    have h1 : strStarts "data: ".data ("data: ".data ++ dat) = true :=
      strStarts_self_append _ _
    have h6 : ("data: ".data ++ dat).drop 6 = dat := List.drop_left' (by rfl)
    simp only [processSSELine, h1, if_true, h6]

/-- C10: a structured tool call whose buffered function name is still absent
is never emitted by the per-fragment step `tryEmitBufferedToolCall`, even
when its accumulated argument text already parses as a JSON object; only the
terminal flush emits such a call, substituting the name `unknown_tool`. -/
theorem c10_structured_emission_name_gated :
    (∀ (st : SessionState) (index : Nat) (buf : ToolCallBuf),
      mapGet st.toolCallBuffers index = some buf → buf.name = none →
      tryEmitBufferedToolCall st index = (st, [])) ∧
    (∀ (st : SessionState) (idx : Nat) (idv : Option Str) (args : Str) (v : JsonVal)
       (b : Bool),
      st.toolCallBuffers = [(idx, ⟨idv, none, args⟩)] →
      tryParseJSONObject args = some v →
      (flushToolCallBuffers st b).2.1 = [.toolCall idv "unknown_tool".data v]) := by
  constructor
  · intro st index buf hget hname
    simp [tryEmitBufferedToolCall, hget, hname]
  · intro st idx idv args v b hbuf hparse
    simp [flushToolCallBuffers, hbuf, flushAux, hparse]

/-- C10 witness: the name-gate and the flush substitution at a concrete
buffer whose arguments are the complete object `\x7b\x7d`. -/
theorem c10_witness :
    (mapGet c10State.toolCallBuffers 0 = some c10Buf ∧
     tryEmitBufferedToolCall c10State 0 = (c10State, [])) ∧
    (flushToolCallBuffers c10State true).2.1 =
      [.toolCall none "unknown_tool".data emptyObj] :=
  ⟨⟨by decide,
    c10_structured_emission_name_gated.1 c10State 0 c10Buf (by decide) rfl⟩,
   c10_structured_emission_name_gated.2 c10State 0 none c10Buf.args emptyObj true rfl
     (by decide)⟩

end ChatGLM
